import Mathlib

/-!
# Job coordinator of the CSV call scheduler (`index.js`)

A shallow embedding of the coordinator in `index.js`: the correlation map
`callsData`, the report writer, the four queue event handlers, the enqueue
loop of `main` and `onEnded`.

What lies outside the file is taken as data: the values `moment()` and
`guid.v4()` return, the outcome of `conv.execute()`, the rows the CSV parser
yields.  The report is the sequence of records handed to
`writer.writeRecords`; the console, the engine queue and the calls to
`conv.ignore`, `conv.execute` and `onEnded` are recorded in the state in
program order.

Handlers run one after the other, as on the single JavaScript thread. The
ready handler is given in two halves, before and after `await conv.execute()`.
`onReady`, `step` and `run` run both halves together with the outcome of the
execution supplied; `advance` and `play` run the halves as separate turns, so
that other handlers can run while a ready handler is suspended.

The enqueue loop is given by the statements it executes in program order.
-/

namespace DashaCsv

/-! ## Insertion-ordered dictionaries

A JavaScript `Map` with string keys and a plain object both keep their entries
in insertion order and hold each key at most once. -/

/-- Insertion-ordered dictionary with string keys, each key held at most once. -/
structure Dict (β : Type) where
  entries : List (String × β)
  nodup : (entries.map Prod.fst).Nodup

namespace Dict

variable {β : Type}

/-- Two dictionaries are equal when their entry lists are. -/
instance [DecidableEq β] : DecidableEq (Dict β) := fun a b =>
  decidable_of_iff (a.entries = b.entries)
    ⟨fun h => by cases a; cases b; cases h; rfl, fun h => by rw [h]⟩

/-- The dictionary without entries: `new Map()`, or the object literal without properties. -/
def empty : Dict β := ⟨[], List.nodup_nil⟩

/-- The keys in insertion order. -/
def keys (d : Dict β) : List String := d.entries.map Prod.fst

/-- Lookup: `map.get(k)` or `obj[k]`; `none` stands for a missing entry. -/
def get (d : Dict β) (k : String) : Option β := List.lookup k d.entries

/-- Number of entries: `map.size`. -/
def size (d : Dict β) : Nat := d.entries.length

/-- Assignment: `map.set(k, v)` or `obj[k] = v`. An existing key keeps its place and
takes the new value, a new key goes to the end. -/
def set (d : Dict β) (k : String) (v : β) : Dict β :=
  if h : k ∈ d.entries.map Prod.fst then
    ⟨d.entries.map (fun p => if p.1 = k then (k, v) else p), by
      have hk : (d.entries.map (fun p => if p.1 = k then (k, v) else p)).map Prod.fst
          = d.entries.map Prod.fst := by
        rw [List.map_map]
        apply List.map_congr_left
        intro p _
        by_cases hp : p.1 = k <;> simp [hp]
      rw [hk]
      exact d.nodup⟩
  else
    ⟨d.entries ++ [(k, v)], by
      rw [List.map_append, List.nodup_append]
      refine ⟨d.nodup, by simp, ?_⟩
      intro a ha hb
      simp only [List.map_cons, List.map_nil, List.mem_singleton] at hb
      subst hb
      exact h ha⟩

/-- Removal: `map.delete(k)`. Removing a key that is not there changes nothing. -/
def delete (d : Dict β) (k : String) : Dict β :=
  ⟨d.entries.filter (fun p => p.1 != k),
    (d.nodup).sublist ((List.filter_sublist d.entries).map Prod.fst)⟩

end Dict

/-! ## Values, records and rows -/

/-- The JavaScript values the coordinator handles: `undefined`, `null`, strings and
the `moment()` objects used as timestamps (given by their clock reading). -/
inductive Value where
  | undefined
  | null
  | str (s : String)
  | moment (t : Nat)
  deriving DecidableEq, Repr

/-- A plain object: own enumerable properties in insertion order. -/
abbrev Obj := Dict Value

/-- Job keys are the strings `guid.v4()` returns. -/
abbrev Key := String

/-- Object spread `{ ...target, ...src }`: the own properties of `src` are assigned onto
`target` in order; spreading `null` or `undefined` (here `none`) adds nothing. -/
def spread (target : Obj) (src : Option Obj) : Obj :=
  match src with
  | none => target
  | some o => o.entries.foldl (fun acc p => acc.set p.1 p.2) target

/-- Lookup of a field in an object that may be `null`: nothing is found in `null`. -/
def getField (o : Option Obj) (f : String) : Option Value :=
  match o with
  | none => none
  | some d => d.get f

/-- One column of the report: `{ id, title }`. -/
structure Header where
  id : String
  title : String
  deriving DecidableEq, Repr

/-- The fixed columns of the report. -/
def csvReportHeaders : List Header :=
  [ ⟨"phone", "Phone"⟩,
    ⟨"status", "Status"⟩,
    ⟨"serviceStatus", "Service Status"⟩,
    ⟨"record", "RecordUrl"⟩,
    ⟨"jobStatus", "Job Status"⟩,
    ⟨"errors", "Errors"⟩ ]

/-- The object CSV writer: its configuration and the records handed to `writeRecords`
so far, oldest first. -/
structure CsvWriter where
  alwaysQuote : Bool
  path : String
  header : List Header
  records : List Obj

/-- The writer `createCsvReport(filePath, headers)` returns. -/
def createCsvReport (filePath : String) (headers : List Header) : CsvWriter :=
  { alwaysQuote := true, path := filePath, header := headers, records := [] }

/-- Append: `writer.writeRecords(rs)`. -/
def CsvWriter.writeRecords (w : CsvWriter) (rs : List Obj) : CsvWriter :=
  { w with records := w.records ++ rs }

/-- The row `{ timestamp, ...input, ...output, ...customData }` that `writeResult` builds. -/
def resultRow (timestamp : Value) (input output customData : Option Obj) : Obj :=
  spread (spread (spread ((Dict.empty).set "timestamp" timestamp) input) output) customData

/-- The function `writeResult(writer, timestamp, input, output, customData)`: hands one
record, the merged row, to the writer. -/
def writeResult (writer : CsvWriter) (timestamp : Value) (input output customData : Option Obj) :
    CsvWriter :=
  writer.writeRecords [resultRow timestamp input output customData]

/-! ## Coordinator state -/

/-- An error object as the handlers read it: `error.name`, `error.message`, `error.reason`. -/
structure JsError where
  name : String
  message : String
  reason : String

/-- What `await conv.execute()` resolves to: `{ output, recordingUrl }`. -/
structure ExecResult where
  output : Option Obj
  recordingUrl : Value

/-- The settings of a conversation the ready handler writes before executing it. -/
structure Conv where
  input : Option Obj
  noiseVolume : ℚ
  sipConfig : String
  tts : String

/-- One console call. -/
inductive LogLine where
  | log (s : String)
  | warn (s : String)
  | error (s : String)
  | logObj (o : Option Obj)

/-- How a handler ends: it returns, or it throws (an async handler rejects). -/
inductive Completion where
  | normal
  | throw (name : String) (message : String)
  deriving DecidableEq, Repr

/-- Everything the coordinator reads and writes: the module-level map `callsData`, the
report writer, the keys pushed to `app.queue`, the console, the conversations declined
with `conv.ignore()`, the conversations started with `conv.execute()` and the number of
calls of `onEnded`. -/
structure State where
  callsData : Dict Obj
  writer : CsvWriter
  queue : List Key
  console : List LogLine
  ignored : List Key
  executed : List (Key × Conv)
  ended : Nat

/-- The records handed to the writer so far. -/
def State.report (s : State) : List Obj := s.writer.records

/-- The call `onEnded()`: prints the notice and arms the ten-second exit timer; the count
`ended` records the call. -/
def onEnded (s : State) : State :=
  { s with
    console := s.console ++ [LogLine.log "Calls ended. Waiting 10 seconds to close application..."],
    ended := s.ended + 1 }

/-- The closing lines shared by the resolving handlers:
`callsData.delete(key); if (callsData.size == 0) { onEnded(); }`. -/
def deleteAndCheck (s : State) (key : Key) : State :=
  let s1 := { s with callsData := s.callsData.delete key }
  if s1.callsData.size = 0 then onEnded s1 else s1

/-- The object literal `{ key, jobStatus }`. -/
def customData (key : Key) (jobStatus : String) : Obj :=
  ((Dict.empty).set "key" (Value.str key)).set "jobStatus" (Value.str jobStatus)

/-- The object literal `{ key, jobStatus: "Completed", record: result.recordingUrl }`. -/
def completedData (key : Key) (result : ExecResult) : Obj :=
  (customData key "Completed").set "record" result.recordingUrl

/-! ## Event handlers -/

/-- The conversation after the four assignments of the ready handler: `conv.input = data`,
`conv.audio.noiseVolume = 0.1`, `conv.sip.config = "default"`, `conv.audio.tts = "default"`. -/
def configured (data : Obj) : Conv :=
  { input := some data, noiseVolume := 0.1, sipConfig := "default", tts := "default" }

/-- First half of the ready handler, up to `await conv.execute()`. With no record under
`key` it prints two lines, declines the conversation and then evaluates
`writeResult(writer, now, ...)`, where no `now` is in scope (the two `const now` belong
to the `try` and `catch` blocks), so a ReferenceError is thrown before `writeResult`
runs: the result is `none`. Otherwise the conversation is configured and started. -/
def readyBegin (s : State) (key : Key) : State × Option Conv :=
  match s.callsData.get key with
  | none =>
    let s1 := { s with console := s.console ++
      [LogLine.log ("Can\x27t find data was job with key " ++ key),
       LogLine.log ("Rejecting " ++ key)] }
    ({ s1 with ignored := s1.ignored ++ [key] }, none)
  | some data =>
    let conv := configured data
    ({ s with executed := s.executed ++ [(key, conv)] }, some conv)

/-- Second half of the ready handler: the `try` body after `conv.execute()` resolved, or
the `catch` block after it threw, then the `finally` block. -/
def readyResume (s : State) (key : Key) (conv : Conv) (now : Nat)
    (outcome : Except JsError ExecResult) : State :=
  let s2 :=
    match outcome with
    | Except.ok result =>
      let s1 := { s with console := s.console ++ [LogLine.logObj result.output] }
      { s1 with
        writer := writeResult s1.writer (Value.moment now) conv.input result.output
          (some (completedData key result)) }
    | Except.error error =>
      let s1 := { s with console := s.console ++
        [LogLine.error ("Job " ++ key ++ " execution was failed. Error: " ++ error.name ++ ": "
          ++ error.message)] }
      { s1 with
        writer := writeResult s1.writer (Value.moment now) conv.input none
          (some (customData key "Failed")) }
  deleteAndCheck s2 key

/-- The handler of the queue event `ready`, run to its end with the given outcome of
`conv.execute()` and the given reading of `moment()`. -/
def onReady (s : State) (key : Key) (now : Nat) (outcome : Except JsError ExecResult) :
    State × Completion :=
  match readyBegin s key with
  | (s1, none) => (s1, Completion.throw "ReferenceError" "now is not defined")
  | (s1, some conv) => (readyResume s1 key conv now outcome, Completion.normal)

/-- The handler of the queue event `error`. -/
def onError (s : State) (error : JsError) : State :=
  { s with console := s.console ++
    [LogLine.error ("Error " ++ error.name ++ ":" ++ error.message ++ ". Reason " ++ error.reason)] }

/-- The handler of the queue event `rejected`. -/
def onRejected (s : State) (key : Key) (now : Nat) (error : JsError) : State :=
  let s1 := { s with console := s.console ++
    [LogLine.warn ("Job " ++ key ++ " was rejected. Error " ++ error.name ++ ":" ++ error.message
      ++ ". Reason " ++ error.reason)] }
  let s2 := { s1 with
    writer := writeResult s1.writer (Value.moment now) (s1.callsData.get key) none
      (some (customData key "Rejected")) }
  deleteAndCheck s2 key

/-- The handler of the queue event `timeout`. -/
def onTimeout (s : State) (key : Key) (now : Nat) : State :=
  let s1 := { s with console := s.console ++ [LogLine.log ("Job " ++ key ++ " was timed out")] }
  let s2 := { s1 with
    writer := writeResult s1.writer (Value.moment now) (s1.callsData.get key) none
      (some (customData key "Timeout")) }
  deleteAndCheck s2 key

/-! ## The enqueue loop of `main` -/

/-- The rows the loop of `loadCallsFromCsv` collects from the parser, in file order. -/
def loadCallsFromCsv (rows : List Obj) : List Obj :=
  rows.foldl (fun data csv_row => data ++ [csv_row]) []

/-- The statement `callsData.set(uniqueId, dataRecord)`. -/
def storeRecord (s : State) (uniqueId : Key) (dataRecord : Obj) : State :=
  { s with callsData := s.callsData.set uniqueId dataRecord }

/-- The statement `app.queue.push(uniqueId)`. -/
def pushKey (s : State) (uniqueId : Key) : State :=
  { s with queue := s.queue ++ [uniqueId] }

/-- The statements of the enqueue loop that change the state. -/
inductive Stmt where
  | set (uniqueId : Key) (dataRecord : Obj)
  | push (uniqueId : Key)

/-- Execution of one statement. -/
def Stmt.exec (s : State) : Stmt → State
  | Stmt.set uniqueId dataRecord => storeRecord s uniqueId dataRecord
  | Stmt.push uniqueId => pushKey s uniqueId

/-- Execution of statements one after the other. -/
def execStmts (s : State) (stmts : List Stmt) : State :=
  stmts.foldl Stmt.exec s

/-- The body of the enqueue loop for the identifier `guid.v4()` returned, in program order:
`callsData.set(uniqueId, dataRecord); app.queue.push(uniqueId);`. -/
def enqueueBody (uniqueId : Key) (dataRecord : Obj) : List Stmt :=
  [Stmt.set uniqueId dataRecord, Stmt.push uniqueId]

/-- The statements the enqueue loop executes over all its turns, in program order. -/
def enqueueStmts : List (Key × Obj) → List Stmt
  | [] => []
  | job :: rest => enqueueBody job.1 job.2 ++ enqueueStmts rest

/-- One turn of the enqueue loop: its body executed. -/
def enqueueOne (s : State) (uniqueId : Key) (dataRecord : Obj) : State :=
  execStmts s (enqueueBody uniqueId dataRecord)

/-- The enqueue loop, over the records paired with the identifiers drawn for them. -/
def enqueueLoop (s : State) (jobs : List (Key × Obj)) : State :=
  jobs.foldl (fun acc job => enqueueOne acc job.1 job.2) s

/-- The state when `main` starts: the map is empty and nothing was written. The report
path is `process.argv[3]`, or the timestamped name when that is missing or empty. -/
def initState (argv3 : Option String) (stamp : String) : State :=
  let named := match argv3 with
    | some p => p != ""
    | none => false
  let csvOutput := if named then argv3.getD "" else stamp ++ ".csv"
  let console :=
    if named then []
    else [LogLine.log "path for report file was not specified",
          LogLine.log ("report will be saved as " ++ csvOutput)]
  { callsData := Dict.empty,
    writer := createCsvReport csvOutput csvReportHeaders,
    queue := [],
    console := console,
    ignored := [],
    executed := [],
    ended := 0 }

/-- The function `main` up to `app.start`: the rows are loaded, one job per row is stored
and pushed, and the count is printed. -/
def main (argv3 : Option String) (stamp : String) (rows : List Obj) (guids : List Key) : State :=
  let data := loadCallsFromCsv rows
  let s := enqueueLoop (initState argv3 stamp) (List.zip guids data)
  { s with console := s.console ++ [LogLine.log (toString s.callsData.size ++ " call(s) was enqueued")] }

/-! ## Event sequences -/

/-- An event the engine delivers, with the reading of `moment()` its handler takes and,
for `ready`, the outcome of `conv.execute()`. -/
inductive Event where
  | ready (key : Key) (now : Nat) (outcome : Except JsError ExecResult)
  | error (error : JsError)
  | rejected (key : Key) (now : Nat) (error : JsError)
  | timeout (key : Key) (now : Nat)

/-- The handler run for an event, to its end: for `ready` both halves of the handler with
no other handler between them. -/
def step (s : State) : Event → State
  | Event.ready key now outcome => (onReady s key now outcome).1
  | Event.error error => onError s error
  | Event.rejected key now error => onRejected s key now error
  | Event.timeout key now => onTimeout s key now

/-- Handlers run one after the other, in the order the events arrive. -/
def run (s : State) (events : List Event) : State :=
  events.foldl step s

/-- The key of a resolving event; the engine-level `error` event has none. -/
def Event.key? : Event → Option Key
  | Event.ready key _ _ => some key
  | Event.error _ => none
  | Event.rejected key _ _ => some key
  | Event.timeout key _ => some key

/-- The job status the handler of a resolving event writes (for `ready`, when the key
is in the map). -/
def Event.jobStatus? : Event → Option String
  | Event.ready _ _ (Except.ok _) => some "Completed"
  | Event.ready _ _ (Except.error _) => some "Failed"
  | Event.error _ => none
  | Event.rejected _ _ _ => some "Rejected"
  | Event.timeout _ _ => some "Timeout"

/-! ## Properties named in the statements -/

/-- The map `after` is the map `before` with the key `k` erased: `k` is gone, every other
key keeps its record, one entry fewer when `k` was there, the same map when it was not. -/
def Dict.IsErasure {β : Type} (before : Dict β) (k : String) (after : Dict β) : Prop :=
  after.get k = none ∧
  (∀ j, j ≠ k → after.get j = before.get j) ∧
  (before.get k ≠ none → after.size + 1 = before.size) ∧
  (before.get k = none → after = before)

/-- Sample input record `{ phone: "+1555...", name: "Alice" }`. -/
def aliceRecord : Obj :=
  ((Dict.empty).set "phone" (Value.str "+1555...")).set "name" (Value.str "Alice")

/-- Sample input record `{ phone: "+1666...", name: "Carol" }`. -/
def carolRecord : Obj :=
  ((Dict.empty).set "phone" (Value.str "+1666...")).set "name" (Value.str "Carol")

/-- Sample input record `{ phone: "+1777...", name: "Dave" }`. -/
def daveRecord : Obj :=
  ((Dict.empty).set "phone" (Value.str "+1777...")).set "name" (Value.str "Dave")

/-- Sample execution output `{ name: "Bob" }`, sharing the field `name` with the input. -/
def bobOutput : Obj :=
  (Dict.empty).set "name" (Value.str "Bob")

/-- Sample error object. -/
def sampleError : JsError :=
  { name := "Error", message := "declined", reason := "busy" }

/-- The state after `main` enqueued the one record `aliceRecord` under the key `k1`. -/
def oneJob : State :=
  main (some "report.csv") "" [aliceRecord] ["k1"]

/-- The state after `main` enqueued three records under the keys `k1`, `k2`, `k3`. -/
def threeJobs : State :=
  main (some "report.csv") "" [aliceRecord, carolRecord, daveRecord] ["k1", "k2", "k3"]

/-- The two fields of a row the report properties are about: its `key` and its `jobStatus`. -/
def rowSummary (row : Obj) : Option Value × Option Value :=
  (row.get "key", row.get "jobStatus")

/-- The `key` and `jobStatus` a resolving event stands for. -/
def Event.expected (e : Event) : Option Value × Option Value :=
  (e.key?.map Value.str, e.jobStatus?.map Value.str)

/-! ## Turns of the event loop

The ready handler is suspended at `await conv.execute()`, and other handlers run before it
resumes. A turn is what runs without interruption. -/

/-- One turn of the event loop: a ready handler runs up to its `await` (`ready`), a
suspended ready handler resumes with the key and the conversation it holds and with the
outcome of the execution (`settled`), or one of the other three handlers runs. -/
inductive Turn where
  | ready (key : Key)
  | settled (key : Key) (conv : Conv) (now : Nat) (outcome : Except JsError ExecResult)
  | error (error : JsError)
  | rejected (key : Key) (now : Nat) (error : JsError)
  | timeout (key : Key) (now : Nat)

/-- The state after one turn. -/
def advance (s : State) : Turn → State
  | Turn.ready key => (readyBegin s key).1
  | Turn.settled key conv now outcome => readyResume s key conv now outcome
  | Turn.error error => onError s error
  | Turn.rejected key now error => onRejected s key now error
  | Turn.timeout key now => onTimeout s key now

/-- The state after a sequence of turns. -/
def play (s : State) (turns : List Turn) : State :=
  turns.foldl advance s

/-- The turns that end with `callsData.delete(key)` and the check of `callsData.size`: the
rejected handler, the timeout handler and the resumed ready handler. -/
def Turn.resolves : Turn → Bool
  | Turn.ready _ => false
  | Turn.settled _ _ _ _ => true
  | Turn.error _ => false
  | Turn.rejected _ _ _ => true
  | Turn.timeout _ _ => true

/-- No turn that resolves a job runs while the map is empty and `onEnded` was already
called. -/
def noLateResolve : State → List Turn → Bool
  | _, [] => true
  | s, t :: rest =>
    !(t.resolves && s.callsData.size == 0 && s.ended != 0) && noLateResolve (advance s t) rest

/-! ## Lookup in entry lists -/

theorem lookup_eq_none_iff_not_mem {β : Type} (k : String) (l : List (String × β)) :
    List.lookup k l = none ↔ k ∉ l.map Prod.fst := by
  induction l with
  | nil => simp
  | cons p t ih =>
    obtain ⟨a, b⟩ := p
    by_cases h : k = a
    · subst h
      simp [List.lookup_cons]
    · have hb : (k == a) = false := by simpa using h
      simp [List.lookup_cons, hb, ih, h]

theorem lookup_map_update {β : Type} (k : String) (v : β) (f : String) (l : List (String × β)) :
    List.lookup f (l.map (fun p => if p.1 = k then (k, v) else p))
      = if f = k then (List.lookup k l).map (fun _ => v) else List.lookup f l := by
  induction l with
  | nil => simp
  | cons p t ih =>
    obtain ⟨a, b⟩ := p
    by_cases hak : a = k
    · subst hak
      by_cases hf : f = a
      · subst hf
        simp [List.lookup_cons]
      · have hb : (f == a) = false := by simpa using hf
        simp [List.lookup_cons, hb, hf, ih]
    · by_cases hf : f = k
      · subst hf
        have hb : (f == a) = false := by simpa using (Ne.symm hak)
        simp [List.lookup_cons, hb, hak, ih]
      · by_cases hfa : f = a
        · subst hfa
          simp [List.lookup_cons, hak, hf]
        · have hb : (f == a) = false := by simpa using hfa
          simp [List.lookup_cons, hb, hak, hf, ih]

theorem lookup_append_single {β : Type} (k : String) (v : β) (f : String) (l : List (String × β)) :
    List.lookup f (l ++ [(k, v)])
      = match List.lookup f l with
        | some w => some w
        | none => if f = k then some v else none := by
  induction l with
  | nil =>
    by_cases hf : f = k
    · subst hf
      simp [List.lookup_cons]
    · have hb : (f == k) = false := by simpa using hf
      simp [List.lookup_cons, hb, hf]
  | cons p t ih =>
    obtain ⟨a, b⟩ := p
    by_cases hfa : f = a
    · subst hfa
      simp [List.lookup_cons]
    · have hb : (f == a) = false := by simpa using hfa
      simp [List.lookup_cons, hb, ih]

theorem lookup_filter_ne {β : Type} (k : String) (f : String) (l : List (String × β)) :
    List.lookup f (l.filter (fun p => p.1 != k)) = if f = k then none else List.lookup f l := by
  induction l with
  | nil => simp
  | cons p t ih =>
    obtain ⟨a, b⟩ := p
    by_cases hak : a = k
    · subst hak
      by_cases hf : f = a
      · subst hf
        simp [List.filter_cons, ih]
      · have hb : (f == a) = false := by simpa using hf
        simp [List.filter_cons, List.lookup_cons, hb, hf, ih]
    · have hne : (a != k) = true := by simpa using hak
      by_cases hfa : f = a
      · subst hfa
        simp [List.filter_cons, List.lookup_cons, hak]
      · have hb : (f == a) = false := by simpa using hfa
        simp [List.filter_cons, hne, List.lookup_cons, hb, ih]

theorem filter_ne_of_not_mem {β : Type} (k : String) (l : List (String × β))
    (h : k ∉ l.map Prod.fst) : l.filter (fun p => p.1 != k) = l := by
  rw [List.filter_eq_self]
  intro p hp
  have : p.1 ≠ k := by
    intro hk
    exact h (hk ▸ List.mem_map_of_mem Prod.fst hp)
  simpa using this

theorem length_filter_ne_of_mem {β : Type} (k : String) (l : List (String × β))
    (hn : (l.map Prod.fst).Nodup) (h : k ∈ l.map Prod.fst) :
    (l.filter (fun p => p.1 != k)).length + 1 = l.length := by
  induction l with
  | nil => simp at h
  | cons p t ih =>
    obtain ⟨a, b⟩ := p
    simp only [List.map_cons, List.nodup_cons] at hn
    by_cases hak : a = k
    · subst hak
      have := filter_ne_of_not_mem a t hn.1
      simp [List.filter_cons, this]
    · have hne : (a != k) = true := by simpa using hak
      have hk : k ∈ t.map Prod.fst := by
        simp only [List.map_cons, List.mem_cons] at h
        rcases h with h | h
        · exact absurd h.symm hak
        · exact h
      simp [List.filter_cons, hne, ih hn.2 hk]

/-! ## Laws of the dictionary operations -/

theorem Dict.ext_entries {β : Type} (a b : Dict β) (h : a.entries = b.entries) : a = b := by
  cases a
  cases b
  simp only [Dict.mk.injEq]
  exact h

theorem Dict.get_empty {β : Type} (f : String) : (Dict.empty : Dict β).get f = none := rfl

theorem Dict.get_eq_none_iff {β : Type} (d : Dict β) (k : String) :
    d.get k = none ↔ k ∉ d.keys :=
  lookup_eq_none_iff_not_mem k d.entries

theorem Dict.get_set {β : Type} (d : Dict β) (k : String) (v : β) (f : String) :
    (d.set k v).get f = if f = k then some v else d.get f := by
  unfold Dict.set Dict.get
  by_cases h : k ∈ d.entries.map Prod.fst
  · rw [dif_pos h]
    simp only
    rw [lookup_map_update]
    by_cases hf : f = k
    · have hs : List.lookup k d.entries ≠ none := by
        rw [Ne, lookup_eq_none_iff_not_mem]
        exact not_not.mpr h
      obtain ⟨w, hw⟩ := Option.ne_none_iff_exists'.mp hs
      simp [hf, hw]
    · simp [hf]
  · rw [dif_neg h]
    simp only
    rw [lookup_append_single]
    by_cases hf : f = k
    · subst hf
      have hn : List.lookup f d.entries = none := (lookup_eq_none_iff_not_mem f d.entries).mpr h
      simp [hn]
    · cases hl : List.lookup f d.entries <;> simp [hf]

theorem Dict.keys_set_of_not_mem {β : Type} (d : Dict β) (k : String) (v : β)
    (h : k ∉ d.keys) : (d.set k v).keys = d.keys ++ [k] := by
  unfold Dict.keys at h
  unfold Dict.set Dict.keys
  rw [dif_neg h]
  simp

theorem Dict.entries_set_of_not_mem {β : Type} (d : Dict β) (k : String) (v : β)
    (h : k ∉ d.keys) : (d.set k v).entries = d.entries ++ [(k, v)] := by
  unfold Dict.keys at h
  unfold Dict.set
  rw [dif_neg h]

theorem Dict.get_delete {β : Type} (d : Dict β) (k : String) (f : String) :
    (d.delete k).get f = if f = k then none else d.get f :=
  lookup_filter_ne k f d.entries

theorem Dict.delete_of_get_none {β : Type} (d : Dict β) (k : String) (h : d.get k = none) :
    d.delete k = d :=
  Dict.ext_entries _ _ (filter_ne_of_not_mem k d.entries ((lookup_eq_none_iff_not_mem k d.entries).mp h))

theorem Dict.size_delete_of_get_some {β : Type} (d : Dict β) (k : String) (h : d.get k ≠ none) :
    (d.delete k).size + 1 = d.size := by
  have hm : k ∈ d.entries.map Prod.fst := by
    by_contra hc
    exact h ((lookup_eq_none_iff_not_mem k d.entries).mpr hc)
  exact length_filter_ne_of_mem k d.entries d.nodup hm

/-! ## Laws of the spread and of the row -/

theorem get_foldl_set (es : List (String × Value)) (hn : (es.map Prod.fst).Nodup) (t : Obj)
    (f : String) :
    (es.foldl (fun acc p => acc.set p.1 p.2) t).get f
      = match List.lookup f es with
        | some v => some v
        | none => t.get f := by
  induction es generalizing t with
  | nil => simp
  | cons p r ih =>
    obtain ⟨a, b⟩ := p
    simp only [List.map_cons, List.nodup_cons] at hn
    rw [List.foldl_cons, ih hn.2, Dict.get_set]
    by_cases hf : f = a
    · subst hf
      have hr : List.lookup f r = none := (lookup_eq_none_iff_not_mem f r).mpr hn.1
      simp [hr, List.lookup_cons]
    · have hb : (f == a) = false := by simpa using hf
      simp [hf, hb, List.lookup_cons]

theorem get_spread (t : Obj) (src : Option Obj) (f : String) :
    (spread t src).get f
      = match getField src f with
        | some v => some v
        | none => t.get f := by
  cases src with
  | none => rfl
  | some o => exact get_foldl_set o.entries o.nodup t f

theorem get_resultRow (timestamp : Value) (input output customData : Option Obj) (f : String) :
    (resultRow timestamp input output customData).get f
      = match getField customData f with
        | some v => some v
        | none =>
          match getField output f with
          | some v => some v
          | none =>
            match getField input f with
            | some v => some v
            | none => if f = "timestamp" then some timestamp else none := by
  unfold resultRow
  rw [get_spread, get_spread, get_spread, Dict.get_set, Dict.get_empty]

theorem get_customData_key (key : Key) (jobStatus : String) :
    (customData key jobStatus).get "key" = some (Value.str key) := by
  unfold customData
  rw [Dict.get_set, Dict.get_set]
  simp

theorem get_customData_jobStatus (key : Key) (jobStatus : String) :
    (customData key jobStatus).get "jobStatus" = some (Value.str jobStatus) := by
  unfold customData
  rw [Dict.get_set]
  simp

theorem get_completedData_key (key : Key) (result : ExecResult) :
    (completedData key result).get "key" = some (Value.str key) := by
  unfold completedData
  rw [Dict.get_set, get_customData_key]
  simp

theorem get_completedData_jobStatus (key : Key) (result : ExecResult) :
    (completedData key result).get "jobStatus" = some (Value.str "Completed") := by
  unfold completedData
  rw [Dict.get_set, get_customData_jobStatus]
  simp

theorem get_completedData_record (key : Key) (result : ExecResult) :
    (completedData key result).get "record" = some result.recordingUrl := by
  unfold completedData
  rw [Dict.get_set]
  simp

/-! ## Effects of the handlers -/

theorem deleteAndCheck_callsData (s : State) (k : Key) :
    (deleteAndCheck s k).callsData = s.callsData.delete k := by
  unfold deleteAndCheck
  simp only
  split <;> rfl

theorem deleteAndCheck_writer (s : State) (k : Key) : (deleteAndCheck s k).writer = s.writer := by
  unfold deleteAndCheck
  simp only
  split <;> rfl

theorem deleteAndCheck_ended (s : State) (k : Key) :
    (deleteAndCheck s k).ended
      = if (s.callsData.delete k).size = 0 then s.ended + 1 else s.ended := by
  unfold deleteAndCheck
  simp only
  split <;> rfl

theorem onRejected_report (s : State) (k : Key) (now : Nat) (error : JsError) :
    (onRejected s k now error).report
      = s.report ++ [resultRow (Value.moment now) (s.callsData.get k) none
          (some (customData k "Rejected"))] := by
  simp [onRejected, State.report, deleteAndCheck_writer, writeResult, CsvWriter.writeRecords]

theorem onRejected_callsData (s : State) (k : Key) (now : Nat) (error : JsError) :
    (onRejected s k now error).callsData = s.callsData.delete k := by
  simp [onRejected, deleteAndCheck_callsData]

theorem onRejected_ended (s : State) (k : Key) (now : Nat) (error : JsError) :
    (onRejected s k now error).ended
      = if (s.callsData.delete k).size = 0 then s.ended + 1 else s.ended := by
  simp [onRejected, deleteAndCheck_ended]

theorem onTimeout_report (s : State) (k : Key) (now : Nat) :
    (onTimeout s k now).report
      = s.report ++ [resultRow (Value.moment now) (s.callsData.get k) none
          (some (customData k "Timeout"))] := by
  simp [onTimeout, State.report, deleteAndCheck_writer, writeResult, CsvWriter.writeRecords]

theorem onTimeout_callsData (s : State) (k : Key) (now : Nat) :
    (onTimeout s k now).callsData = s.callsData.delete k := by
  simp [onTimeout, deleteAndCheck_callsData]

theorem onTimeout_ended (s : State) (k : Key) (now : Nat) :
    (onTimeout s k now).ended
      = if (s.callsData.delete k).size = 0 then s.ended + 1 else s.ended := by
  simp [onTimeout, deleteAndCheck_ended]

theorem readyResume_report_ok (s : State) (k : Key) (conv : Conv) (now : Nat)
    (result : ExecResult) :
    (readyResume s k conv now (Except.ok result)).report
      = s.report ++ [resultRow (Value.moment now) conv.input result.output
          (some (completedData k result))] := by
  simp [readyResume, State.report, deleteAndCheck_writer, writeResult, CsvWriter.writeRecords]

theorem readyResume_report_error (s : State) (k : Key) (conv : Conv) (now : Nat)
    (error : JsError) :
    (readyResume s k conv now (Except.error error)).report
      = s.report ++ [resultRow (Value.moment now) conv.input none
          (some (customData k "Failed"))] := by
  simp [readyResume, State.report, deleteAndCheck_writer, writeResult, CsvWriter.writeRecords]

theorem readyResume_callsData (s : State) (k : Key) (conv : Conv) (now : Nat)
    (outcome : Except JsError ExecResult) :
    (readyResume s k conv now outcome).callsData = s.callsData.delete k := by
  cases outcome <;> simp [readyResume, deleteAndCheck_callsData]

theorem readyResume_ended (s : State) (k : Key) (conv : Conv) (now : Nat)
    (outcome : Except JsError ExecResult) :
    (readyResume s k conv now outcome).ended
      = if (s.callsData.delete k).size = 0 then s.ended + 1 else s.ended := by
  cases outcome <;> simp [readyResume, deleteAndCheck_ended]

theorem onReady_of_get_some (s : State) (k : Key) (now : Nat)
    (outcome : Except JsError ExecResult) (data : Obj) (h : s.callsData.get k = some data) :
    onReady s k now outcome
      = (readyResume { s with executed := s.executed ++ [(k, configured data)] } k
          (configured data) now outcome, Completion.normal) := by
  simp [onReady, readyBegin, h, configured]

theorem onReady_of_get_none (s : State) (k : Key) (now : Nat)
    (outcome : Except JsError ExecResult) (h : s.callsData.get k = none) :
    onReady s k now outcome
      = ({ s with
            console := s.console ++
              [LogLine.log ("Can\x27t find data was job with key " ++ k),
               LogLine.log ("Rejecting " ++ k)],
            ignored := s.ignored ++ [k] },
          Completion.throw "ReferenceError" "now is not defined") := by
  simp [onReady, readyBegin, h]

theorem onReady_report_ok (s : State) (k : Key) (now : Nat) (result : ExecResult) (data : Obj)
    (h : s.callsData.get k = some data) :
    (onReady s k now (Except.ok result)).1.report
      = s.report ++ [resultRow (Value.moment now) (some data) result.output
          (some (completedData k result))] := by
  rw [onReady_of_get_some s k now _ data h]
  simp only
  rw [readyResume_report_ok]
  rfl

theorem onReady_report_error (s : State) (k : Key) (now : Nat) (error : JsError) (data : Obj)
    (h : s.callsData.get k = some data) :
    (onReady s k now (Except.error error)).1.report
      = s.report ++ [resultRow (Value.moment now) (some data) none
          (some (customData k "Failed"))] := by
  rw [onReady_of_get_some s k now _ data h]
  simp only
  rw [readyResume_report_error]
  rfl

theorem onReady_callsData (s : State) (k : Key) (now : Nat)
    (outcome : Except JsError ExecResult) (data : Obj) (h : s.callsData.get k = some data) :
    (onReady s k now outcome).1.callsData = s.callsData.delete k := by
  rw [onReady_of_get_some s k now _ data h]
  simp only
  rw [readyResume_callsData]

theorem onReady_ended (s : State) (k : Key) (now : Nat)
    (outcome : Except JsError ExecResult) (data : Obj) (h : s.callsData.get k = some data) :
    (onReady s k now outcome).1.ended
      = if (s.callsData.delete k).size = 0 then s.ended + 1 else s.ended := by
  rw [onReady_of_get_some s k now _ data h]
  simp only
  rw [readyResume_ended]

theorem get_row_key (ts : Value) (input output : Option Obj) (cd : Obj) (k : Key)
    (h : cd.get "key" = some (Value.str k)) :
    (resultRow ts input output (some cd)).get "key" = some (Value.str k) := by
  rw [get_resultRow]
  simp [getField, h]

theorem get_row_jobStatus (ts : Value) (input output : Option Obj) (cd : Obj) (st : String)
    (h : cd.get "jobStatus" = some (Value.str st)) :
    (resultRow ts input output (some cd)).get "jobStatus" = some (Value.str st) := by
  rw [get_resultRow]
  simp [getField, h]

theorem Dict.isErasure_delete {β : Type} (d : Dict β) (k : String) :
    Dict.IsErasure d k (d.delete k) := by
  refine ⟨?_, ?_, ?_, ?_⟩
  · rw [Dict.get_delete]
    simp
  · intro j hj
    rw [Dict.get_delete]
    simp [hj]
  · exact Dict.size_delete_of_get_some d k
  · exact Dict.delete_of_get_none d k

/-! ## Claims about single handlers -/

/-- C10: `writeResult` hands the writer exactly one record, the right-biased merge
timestamp < input < output < customData: every field takes its value from the last of the
four that defines it, so what customData defines (key, jobStatus, record) is what the row
holds, and a `null` input or output contributes no field. -/
theorem writeResult_right_biased_merge (writer : CsvWriter) (timestamp : Value)
    (input output customData : Option Obj) :
    (writeResult writer timestamp input output customData).records
        = writer.records ++ [resultRow timestamp input output customData] ∧
    (∀ f, (resultRow timestamp input output customData).get f
        = match getField customData f with
          | some v => some v
          | none =>
            match getField output f with
            | some v => some v
            | none =>
              match getField input f with
              | some v => some v
              | none => if f = "timestamp" then some timestamp else none) ∧
    (∀ f v, getField customData f = some v →
        (resultRow timestamp input output customData).get f = some v) ∧
    resultRow timestamp none output customData
        = resultRow timestamp (some Dict.empty) output customData ∧
    resultRow timestamp input none customData
        = resultRow timestamp input (some Dict.empty) customData := by
  refine ⟨rfl, fun f => get_resultRow timestamp input output customData f, ?_, rfl, rfl⟩
  intro f v h
  rw [get_resultRow, h]

/-- C10, at a concrete input: `key` and `jobStatus` of the input and of the output are
overridden by the coordinator's values. -/
theorem writeResult_right_biased_merge_witness :
    (resultRow (Value.moment 1) (some ((aliceRecord).set "key" (Value.str "mine")))
        (some ((bobOutput).set "jobStatus" (Value.str "theirs")))
        (some (customData "k1" "Timeout"))).get "key" = some (Value.str "k1") :=
  (writeResult_right_biased_merge (createCsvReport "report.csv" csvReportHeaders) (Value.moment 1)
    (some ((aliceRecord).set "key" (Value.str "mine")))
    (some ((bobOutput).set "jobStatus" (Value.str "theirs")))
    (some (customData "k1" "Timeout"))).2.2.1 "key" (Value.str "k1") (by decide)

/-- C1: each of the four resolving handlers (ready with a resolved execution and ready
with a thrown execution, both for a key in the map; rejected; timeout) appends exactly one
row to the report, and that row holds key = k and jobStatus = Completed, Failed, Rejected,
Timeout respectively. -/
theorem resolving_handler_appends_one_row (s : State) (k : Key) (now : Nat) :
    (∀ result, s.callsData.get k ≠ none →
      ∃ row, (onReady s k now (Except.ok result)).1.report = s.report ++ [row] ∧
        row.get "key" = some (Value.str k) ∧
        row.get "jobStatus" = some (Value.str "Completed")) ∧
    (∀ error, s.callsData.get k ≠ none →
      ∃ row, (onReady s k now (Except.error error)).1.report = s.report ++ [row] ∧
        row.get "key" = some (Value.str k) ∧
        row.get "jobStatus" = some (Value.str "Failed")) ∧
    (∀ error,
      ∃ row, (onRejected s k now error).report = s.report ++ [row] ∧
        row.get "key" = some (Value.str k) ∧
        row.get "jobStatus" = some (Value.str "Rejected")) ∧
    (∃ row, (onTimeout s k now).report = s.report ++ [row] ∧
        row.get "key" = some (Value.str k) ∧
        row.get "jobStatus" = some (Value.str "Timeout")) := by
  refine ⟨?_, ?_, ?_, ?_⟩
  · intro result h
    obtain ⟨data, hd⟩ := Option.ne_none_iff_exists'.mp h
    exact ⟨_, onReady_report_ok s k now result data hd,
      get_row_key _ _ _ _ k (get_completedData_key k result),
      get_row_jobStatus _ _ _ _ _ (get_completedData_jobStatus k result)⟩
  · intro error h
    obtain ⟨data, hd⟩ := Option.ne_none_iff_exists'.mp h
    exact ⟨_, onReady_report_error s k now error data hd,
      get_row_key _ _ _ _ k (get_customData_key k _),
      get_row_jobStatus _ _ _ _ _ (get_customData_jobStatus k _)⟩
  · intro error
    exact ⟨_, onRejected_report s k now error,
      get_row_key _ _ _ _ k (get_customData_key k _),
      get_row_jobStatus _ _ _ _ _ (get_customData_jobStatus k _)⟩
  · exact ⟨_, onTimeout_report s k now,
      get_row_key _ _ _ _ k (get_customData_key k _),
      get_row_jobStatus _ _ _ _ _ (get_customData_jobStatus k _)⟩

/-- C1, at a concrete input: the ready handler for the enqueued key `k1`, execution
resolved. -/
theorem resolving_handler_appends_one_row_witness :
    oneJob.callsData.get "k1" ≠ none ∧
    ∃ row, (onReady oneJob "k1" 5 (Except.ok ⟨some bobOutput, Value.str "url"⟩)).1.report
        = oneJob.report ++ [row] ∧
      row.get "key" = some (Value.str "k1") ∧
      row.get "jobStatus" = some (Value.str "Completed") :=
  ⟨by decide,
    (resolving_handler_appends_one_row oneJob "k1" 5).1 ⟨some bobOutput, Value.str "url"⟩
      (by decide)⟩

/-- C2: after the handler of a resolving event on k (ready, execution resolved or thrown,
with k in the map; rejected or timeout with k in the map or not) the map is the old map
with k erased: k is absent, every other key keeps its record, the size drops by exactly
one when k was present, and the map is unchanged when k was absent. -/
theorem resolving_handler_erases_key (s : State) (k : Key) (now : Nat) :
    (∀ outcome, s.callsData.get k ≠ none →
      Dict.IsErasure s.callsData k (onReady s k now outcome).1.callsData) ∧
    (∀ error, Dict.IsErasure s.callsData k (onRejected s k now error).callsData) ∧
    Dict.IsErasure s.callsData k (onTimeout s k now).callsData := by
  refine ⟨?_, ?_, ?_⟩
  · intro outcome h
    obtain ⟨data, hd⟩ := Option.ne_none_iff_exists'.mp h
    rw [onReady_callsData s k now outcome data hd]
    exact Dict.isErasure_delete _ _
  · intro error
    rw [onRejected_callsData]
    exact Dict.isErasure_delete _ _
  · rw [onTimeout_callsData]
    exact Dict.isErasure_delete _ _

/-- C2, at a concrete input: the ready handler for the enqueued key `k2` of three. -/
theorem resolving_handler_erases_key_witness :
    threeJobs.callsData.get "k2" ≠ none ∧
    Dict.IsErasure threeJobs.callsData "k2"
      (onReady threeJobs "k2" 5 (Except.error sampleError)).1.callsData :=
  ⟨by decide,
    (resolving_handler_erases_key threeJobs "k2" 5).1 (Except.error sampleError) (by decide)⟩

/-- C7: the handler of the engine-level error event leaves the map unchanged, appends no
row to the report and does not call the shutdown routine; it only prints. -/
theorem onError_frame (s : State) (error : JsError) :
    (onError s error).callsData = s.callsData ∧
    (onError s error).report = s.report ∧
    (onError s error).ended = s.ended ∧
    (onError s error).queue = s.queue ∧
    (onError s error).ignored = s.ignored ∧
    (onError s error).executed = s.executed ∧
    (onError s error).console = s.console ++
      [LogLine.error ("Error " ++ error.name ++ ":" ++ error.message ++ ". Reason "
        ++ error.reason)] :=
  ⟨rfl, rfl, rfl, rfl, rfl, rfl, rfl⟩

/-- C6, what the code does: for a key absent from the map the ready handler prints, declines
the conversation and then throws a ReferenceError while evaluating the arguments of
`writeResult`; no row is appended, the map and the shutdown count are unchanged. -/
theorem onReady_unknown_key_throws (s : State) (k : Key) (now : Nat)
    (outcome : Except JsError ExecResult) (h : s.callsData.get k = none) :
    (onReady s k now outcome).2 = Completion.throw "ReferenceError" "now is not defined" ∧
    (onReady s k now outcome).1.report = s.report ∧
    (onReady s k now outcome).1.ignored = s.ignored ++ [k] ∧
    (onReady s k now outcome).1.callsData = s.callsData ∧
    (onReady s k now outcome).1.ended = s.ended := by
  rw [onReady_of_get_none s k now outcome h]
  exact ⟨rfl, rfl, rfl, rfl, rfl⟩

/-- C6, at a concrete input: after the timeout of `k1` removed it from the map, a ready
event for `k1` throws and the report keeps its one row. -/
theorem onReady_unknown_key_throws_witness :
    (onTimeout threeJobs "k1" 3).callsData.get "k1" = none ∧
    (onReady (onTimeout threeJobs "k1" 3) "k1" 4 (Except.ok ⟨none, Value.str "url"⟩)).2
      = Completion.throw "ReferenceError" "now is not defined" ∧
    (onReady (onTimeout threeJobs "k1" 3) "k1" 4 (Except.ok ⟨none, Value.str "url"⟩)).1.report
      = (onTimeout threeJobs "k1" 3).report :=
  ⟨by decide,
    (onReady_unknown_key_throws (onTimeout threeJobs "k1" 3) "k1" 4
      (Except.ok ⟨none, Value.str "url"⟩) (by decide)).1,
    (onReady_unknown_key_throws (onTimeout threeJobs "k1" 3) "k1" 4
      (Except.ok ⟨none, Value.str "url"⟩) (by decide)).2.1⟩

/-- C9 fails as stated: with the input record `{ phone: "+1555...", name: "Alice" }`
enqueued under `k1` and an execution output `{ name: "Bob" }`, the one row the ready handler
writes holds name = "Bob", not the input value "Alice". -/
theorem onReady_row_overrides_input_name :
    oneJob.callsData.get "k1" = some aliceRecord ∧
    aliceRecord.get "name" = some (Value.str "Alice") ∧
    (onReady oneJob "k1" 5 (Except.ok ⟨some bobOutput, Value.str "url"⟩)).1.report.map
        (fun row => (row.get "jobStatus", row.get "name"))
      = [(some (Value.str "Completed"), some (Value.str "Bob"))] := by
  decide

/-- C9, amended: for an input record enqueued under k and a resolved execution, the ready
handler appends one row that holds jobStatus = Completed and key = k, record equal to the
recordingUrl of the result, and every field of the input record with its original value
unless the output defines a field of that name or the name is key, jobStatus or record. -/
theorem onReady_completed_row (s : State) (k : Key) (now : Nat) (input : Obj)
    (result : ExecResult) (h : s.callsData.get k = some input) :
    ∃ row, (onReady s k now (Except.ok result)).1.report = s.report ++ [row] ∧
      row.get "jobStatus" = some (Value.str "Completed") ∧
      row.get "key" = some (Value.str k) ∧
      row.get "record" = some result.recordingUrl ∧
      (∀ f v, input.get f = some v → getField result.output f = none →
        f ≠ "key" → f ≠ "jobStatus" → f ≠ "record" → row.get f = some v) := by
  refine ⟨_, onReady_report_ok s k now result input h,
    get_row_jobStatus _ _ _ _ _ (get_completedData_jobStatus k result),
    get_row_key _ _ _ _ k (get_completedData_key k result), ?_, ?_⟩
  · rw [get_resultRow]
    simp [getField, get_completedData_record]
  · intro f v hv ho h1 h2 h3
    have hc : (completedData k result).get f = none := by
      unfold completedData customData
      rw [Dict.get_set, Dict.get_set, Dict.get_set, Dict.get_empty]
      simp [h1, h2, h3]
    have hi : getField (some input) f = some v := hv
    have hm : getField (some (completedData k result)) f = none := hc
    rw [get_resultRow, hm, ho, hi]

/-- C9 amended, at the input of the example: `{ phone: "+1555...", name: "Alice" }` with an
output that defines neither field. -/
theorem onReady_completed_row_witness :
    oneJob.callsData.get "k1" = some aliceRecord ∧
    ∃ row, (onReady oneJob "k1" 5 (Except.ok ⟨none, Value.str "url"⟩)).1.report
        = oneJob.report ++ [row] ∧
      row.get "jobStatus" = some (Value.str "Completed") ∧
      row.get "key" = some (Value.str "k1") ∧
      row.get "record" = some (Value.str "url") ∧
      (∀ f v, aliceRecord.get f = some v → getField (none : Option Obj) f = none →
        f ≠ "key" → f ≠ "jobStatus" → f ≠ "record" → row.get f = some v) :=
  ⟨by decide,
    onReady_completed_row oneJob "k1" 5 aliceRecord ⟨none, Value.str "url"⟩ (by decide)⟩

/-! ## The enqueue loop -/

theorem loadCallsFromCsv_eq (rows : List Obj) : loadCallsFromCsv rows = rows := by
  have h : ∀ (l acc : List Obj), l.foldl (fun data csv_row => data ++ [csv_row]) acc = acc ++ l := by
    intro l
    induction l with
    | nil => intro acc; simp
    | cons r t ih => intro acc; simp [ih]
  simpa [loadCallsFromCsv] using h rows []

theorem enqueueLoop_nil (s : State) : enqueueLoop s [] = s := rfl

theorem enqueueLoop_cons (s : State) (job : Key × Obj) (jobs : List (Key × Obj)) :
    enqueueLoop s (job :: jobs) = enqueueLoop (enqueueOne s job.1 job.2) jobs := rfl

theorem enqueueLoop_append (s : State) (xs ys : List (Key × Obj)) :
    enqueueLoop s (xs ++ ys) = enqueueLoop (enqueueLoop s xs) ys := by
  simp [enqueueLoop, List.foldl_append]

theorem enqueueLoop_frame (jobs : List (Key × Obj)) (s : State) :
    (enqueueLoop s jobs).writer = s.writer ∧
    (enqueueLoop s jobs).ended = s.ended ∧
    (enqueueLoop s jobs).console = s.console ∧
    (enqueueLoop s jobs).ignored = s.ignored ∧
    (enqueueLoop s jobs).executed = s.executed := by
  induction jobs generalizing s with
  | nil => exact ⟨rfl, rfl, rfl, rfl, rfl⟩
  | cons job rest ih =>
    rw [enqueueLoop_cons]
    exact ih (enqueueOne s job.1 job.2)

theorem enqueueLoop_entries (jobs : List (Key × Obj)) (s : State)
    (hn : (jobs.map Prod.fst).Nodup) (hfresh : ∀ k ∈ jobs.map Prod.fst, k ∉ s.callsData.keys) :
    (enqueueLoop s jobs).callsData.entries = s.callsData.entries ++ jobs ∧
    (enqueueLoop s jobs).queue = s.queue ++ jobs.map Prod.fst := by
  induction jobs generalizing s with
  | nil => simp [enqueueLoop_nil]
  | cons job rest ih =>
    obtain ⟨k, r⟩ := job
    simp only [List.map_cons, List.nodup_cons] at hn
    have hk : k ∉ s.callsData.keys := hfresh k (by simp)
    have hent : (enqueueOne s k r).callsData.entries = s.callsData.entries ++ [(k, r)] :=
      Dict.entries_set_of_not_mem s.callsData k r hk
    have hfresh2 : ∀ j ∈ rest.map Prod.fst, j ∉ (enqueueOne s k r).callsData.keys := by
      intro j hj hmem
      have hkeys : (enqueueOne s k r).callsData.keys = s.callsData.keys ++ [k] :=
        Dict.keys_set_of_not_mem s.callsData k r hk
      rw [hkeys, List.mem_append, List.mem_singleton] at hmem
      rcases hmem with hmem | hmem
      · exact hfresh j (by simp only [List.map_cons, List.mem_cons]; exact Or.inr hj) hmem
      · exact hn.1 (hmem ▸ hj)
    obtain ⟨h1, h2⟩ := ih (enqueueOne s k r) hn.2 hfresh2
    rw [enqueueLoop_cons]
    refine ⟨?_, ?_⟩
    · rw [h1, hent]
      simp
    · rw [h2]
      simp [enqueueOne, execStmts, enqueueBody, Stmt.exec, pushKey, storeRecord]

theorem lookup_zip_of_nodup {β : Type} (keys : List String) (vals : List β) (hn : keys.Nodup)
    (i : Nat) (k : String) (v : β) (hk : keys[i]? = some k) (hv : vals[i]? = some v) :
    List.lookup k (List.zip keys vals) = some v := by
  induction keys generalizing vals i with
  | nil => simp at hk
  | cons a t ih =>
    cases vals with
    | nil => simp at hv
    | cons b u =>
      rw [List.nodup_cons] at hn
      cases i with
      | zero =>
        simp only [List.getElem?_cons_zero, Option.some.injEq] at hk hv
        subst hk
        subst hv
        simp [List.lookup_cons]
      | succ n =>
        simp only [List.getElem?_cons_succ] at hk hv
        have hmem : k ∈ t := List.getElem?_mem hk
        have hne : k ≠ a := by
          intro h
          exact hn.1 (h ▸ hmem)
        have hb : (k == a) = false := by simpa using hne
        simp [List.lookup_cons, hb, ih u hn.2 n hk hv]

theorem map_fst_zip_of_length_eq {β : Type} (keys : List String) (vals : List β)
    (h : keys.length = vals.length) : (List.zip keys vals).map Prod.fst = keys := by
  induction keys generalizing vals with
  | nil => simp
  | cons a t ih =>
    cases vals with
    | nil => simp at h
    | cons b u =>
      simp only [List.length_cons, Nat.add_right_cancel_iff] at h
      simp [ih u h]

theorem initState_callsData (argv3 : Option String) (stamp : String) :
    (initState argv3 stamp).callsData = Dict.empty := rfl

theorem initState_queue (argv3 : Option String) (stamp : String) :
    (initState argv3 stamp).queue = [] := rfl

theorem enqueueLoop_initState (argv3 : Option String) (stamp : String)
    (jobs : List (Key × Obj)) (hn : (jobs.map Prod.fst).Nodup) :
    (enqueueLoop (initState argv3 stamp) jobs).callsData.entries = jobs ∧
    (enqueueLoop (initState argv3 stamp) jobs).queue = jobs.map Prod.fst := by
  have h := enqueueLoop_entries jobs (initState argv3 stamp) hn (by
    intro k _ hmem
    simp [initState_callsData, Dict.keys, Dict.empty] at hmem)
  simpa [initState_callsData, initState_queue, Dict.empty] using h

theorem main_callsData (argv3 : Option String) (stamp : String) (rows : List Obj)
    (guids : List Key) :
    (main argv3 stamp rows guids).callsData
      = (enqueueLoop (initState argv3 stamp) (List.zip guids rows)).callsData := by
  simp [main, loadCallsFromCsv_eq]

theorem main_queue (argv3 : Option String) (stamp : String) (rows : List Obj)
    (guids : List Key) :
    (main argv3 stamp rows guids).queue
      = (enqueueLoop (initState argv3 stamp) (List.zip guids rows)).queue := by
  simp [main, loadCallsFromCsv_eq]

theorem main_report (argv3 : Option String) (stamp : String) (rows : List Obj)
    (guids : List Key) : (main argv3 stamp rows guids).report = [] := by
  simp [main, State.report, (enqueueLoop_frame _ _).1, initState, createCsvReport]

theorem main_ended (argv3 : Option String) (stamp : String) (rows : List Obj)
    (guids : List Key) : (main argv3 stamp rows guids).ended = 0 := by
  simp [main, (enqueueLoop_frame _ _).2.1, initState]

theorem main_entries (argv3 : Option String) (stamp : String) (rows : List Obj)
    (guids : List Key) (hlen : guids.length = rows.length) (hnd : guids.Nodup) :
    (main argv3 stamp rows guids).callsData.entries = List.zip guids rows := by
  rw [main_callsData]
  exact (enqueueLoop_initState argv3 stamp _
    (by rw [map_fst_zip_of_length_eq guids rows hlen]; exact hnd)).1

theorem not_mem_take_of_nodup (l : List String) (hn : l.Nodup) (i : Nat) (k : String)
    (hk : l[i]? = some k) : k ∉ l.take i := by
  induction l generalizing i with
  | nil => simp at hk
  | cons a t ih =>
    rw [List.nodup_cons] at hn
    cases i with
    | zero => simp
    | succ n =>
      simp only [List.getElem?_cons_succ] at hk
      simp only [List.take_succ_cons, List.mem_cons, not_or]
      refine ⟨?_, ih hn.2 n hk⟩
      intro h
      exact hn.1 (h ▸ List.getElem?_mem hk)

theorem enqueueLoop_take (argv3 : Option String) (stamp : String) (records : List Obj)
    (keys : List Key) (hlen : keys.length = records.length) (hnd : keys.Nodup) (i : Nat) :
    (enqueueLoop (initState argv3 stamp) ((List.zip keys records).take i)).callsData.entries
      = (List.zip keys records).take i ∧
    (enqueueLoop (initState argv3 stamp) ((List.zip keys records).take i)).queue
      = keys.take i := by
  have hmap : ((List.zip keys records).take i).map Prod.fst = keys.take i := by
    rw [List.map_take, map_fst_zip_of_length_eq keys records hlen]
  have hn : (((List.zip keys records).take i).map Prod.fst).Nodup := by
    rw [hmap]
    exact hnd.sublist (List.take_sublist i keys)
  have h := enqueueLoop_initState argv3 stamp _ hn
  rw [hmap] at h
  exact h

theorem execStmts_cons (s : State) (st : Stmt) (rest : List Stmt) :
    execStmts s (st :: rest) = execStmts (Stmt.exec s st) rest := rfl

theorem execStmts_append (s : State) (xs ys : List Stmt) :
    execStmts s (xs ++ ys) = execStmts (execStmts s xs) ys := by
  simp [execStmts, List.foldl_append]

theorem enqueueStmts_cons (job : Key × Obj) (rest : List (Key × Obj)) :
    enqueueStmts (job :: rest)
      = Stmt.set job.1 job.2 :: Stmt.push job.1 :: enqueueStmts rest := rfl

theorem enqueueLoop_eq_execStmts (jobs : List (Key × Obj)) (s : State) :
    enqueueLoop s jobs = execStmts s (enqueueStmts jobs) := by
  induction jobs generalizing s with
  | nil => rfl
  | cons job rest ih =>
    rw [enqueueLoop_cons, ih, enqueueStmts_cons]
    rfl

theorem stored_before_push (jobs : List (Key × Obj)) (s : State) (pre post : List Stmt)
    (k : Key) (h : enqueueStmts jobs = pre ++ Stmt.push k :: post) :
    (execStmts s pre).callsData.get k ≠ none := by
  induction jobs generalizing s pre with
  | nil =>
    have hl := congrArg List.length h
    simp [enqueueStmts] at hl
    omega
  | cons job rest ih =>
    rw [enqueueStmts_cons] at h
    cases pre with
    | nil => simp at h
    | cons x pre1 =>
      cases pre1 with
      | nil =>
        simp only [List.cons_append, List.nil_append, List.cons.injEq, Stmt.push.injEq] at h
        obtain ⟨hx, hk, _⟩ := h
        subst hx
        subst hk
        simp [execStmts, Stmt.exec, storeRecord, Dict.get_set]
      | cons y pre2 =>
        simp only [List.cons_append, List.cons.injEq] at h
        obtain ⟨hx, hy, hrest⟩ := h
        subst hx
        subst hy
        rw [execStmts_cons, execStmts_cons]
        exact ih _ pre2 hrest

theorem fresh_before_set (jobs : List (Key × Obj)) (s : State)
    (hn : (jobs.map Prod.fst).Nodup)
    (hfresh : ∀ j ∈ jobs.map Prod.fst, s.callsData.get j = none ∧ j ∉ s.queue)
    (pre post : List Stmt) (k : Key) (r : Obj)
    (h : enqueueStmts jobs = pre ++ Stmt.set k r :: post) :
    (execStmts s pre).callsData.get k = none ∧ k ∉ (execStmts s pre).queue := by
  induction jobs generalizing s pre with
  | nil =>
    have hl := congrArg List.length h
    simp [enqueueStmts] at hl
    omega
  | cons job rest ih =>
    obtain ⟨a, b⟩ := job
    rw [enqueueStmts_cons] at h
    simp only [List.map_cons, List.nodup_cons] at hn
    cases pre with
    | nil =>
      simp only [List.nil_append, List.cons.injEq, Stmt.set.injEq] at h
      obtain ⟨⟨hk, _⟩, _⟩ := h
      subst hk
      exact hfresh a (by simp)
    | cons x pre1 =>
      cases pre1 with
      | nil => simp at h
      | cons y pre2 =>
        simp only [List.cons_append, List.cons.injEq] at h
        obtain ⟨hx, hy, hrest⟩ := h
        subst hx
        subst hy
        rw [execStmts_cons, execStmts_cons]
        refine ih _ hn.2 ?_ pre2 hrest
        intro j hj
        have hne : j ≠ a := by
          intro hja
          exact hn.1 (hja ▸ hj)
        obtain ⟨h1, h2⟩ := hfresh j (by simp only [List.map_cons, List.mem_cons]; exact Or.inr hj)
        refine ⟨?_, ?_⟩
        · simp [Stmt.exec, storeRecord, pushKey, Dict.get_set, hne, h1]
        · simp [Stmt.exec, storeRecord, pushKey, hne, h2]

/-- C8: for N loaded records and N pairwise distinct identifiers, after the enqueue loop of
`main` the map (empty at the start) has exactly N entries, the i-th identifier mapped to the
i-th record, the keys pushed to the engine queue are the N identifiers in input order, and
each key is inserted into the map before it is pushed: in the sequence of statements the
loop executes, every `app.queue.push(k)` is reached with k in the map, and every
`callsData.set(k, r)` is reached with k neither in the map nor in the queue. -/
theorem main_enqueues_in_order (argv3 : Option String) (stamp : String) (records : List Obj)
    (keys : List Key) (hlen : keys.length = records.length) (hnd : keys.Nodup) :
    (initState argv3 stamp).callsData.size = 0 ∧
    (main argv3 stamp records keys).callsData.size = records.length ∧
    (main argv3 stamp records keys).callsData.keys = keys ∧
    (∀ (i : Nat) (k : Key) (r : Obj), keys[i]? = some k → records[i]? = some r →
      (main argv3 stamp records keys).callsData.get k = some r) ∧
    (main argv3 stamp records keys).queue = keys ∧
    (∀ (i : Nat) (k : Key) (r : Obj), keys[i]? = some k → records[i]? = some r →
      (enqueueLoop (initState argv3 stamp) ((List.zip keys records).take i)).callsData.get k
          = none ∧
      k ∉ (enqueueLoop (initState argv3 stamp) ((List.zip keys records).take i)).queue ∧
      (storeRecord (enqueueLoop (initState argv3 stamp) ((List.zip keys records).take i))
          k r).callsData.get k = some r ∧
      k ∉ (storeRecord (enqueueLoop (initState argv3 stamp) ((List.zip keys records).take i))
          k r).queue ∧
      enqueueLoop (initState argv3 stamp) ((List.zip keys records).take (i + 1))
        = pushKey
            (storeRecord (enqueueLoop (initState argv3 stamp) ((List.zip keys records).take i))
              k r) k) ∧
    (main argv3 stamp records keys).callsData
      = (execStmts (initState argv3 stamp) (enqueueStmts (List.zip keys records))).callsData ∧
    (main argv3 stamp records keys).queue
      = (execStmts (initState argv3 stamp) (enqueueStmts (List.zip keys records))).queue ∧
    (∀ (pre post : List Stmt) (k : Key),
      enqueueStmts (List.zip keys records) = pre ++ Stmt.push k :: post →
      (execStmts (initState argv3 stamp) pre).callsData.get k ≠ none) ∧
    (∀ (pre post : List Stmt) (k : Key) (r : Obj),
      enqueueStmts (List.zip keys records) = pre ++ Stmt.set k r :: post →
      (execStmts (initState argv3 stamp) pre).callsData.get k = none ∧
      k ∉ (execStmts (initState argv3 stamp) pre).queue) := by
  have hent := main_entries argv3 stamp records keys hlen hnd
  refine ⟨rfl, ?_, ?_, ?_, ?_, ?_, ?_, ?_, ?_, ?_⟩
  · simp [Dict.size, hent, hlen]
  · simp [Dict.keys, hent, map_fst_zip_of_length_eq keys records hlen]
  · intro i k r hk hr
    unfold Dict.get
    rw [hent]
    exact lookup_zip_of_nodup keys records hnd i k r hk hr
  · rw [main_queue]
    have h := (enqueueLoop_initState argv3 stamp (List.zip keys records)
      (by rw [map_fst_zip_of_length_eq keys records hlen]; exact hnd)).2
    rw [h, map_fst_zip_of_length_eq keys records hlen]
  · intro i k r hk hr
    obtain ⟨he, hq⟩ := enqueueLoop_take argv3 stamp records keys hlen hnd i
    have hnot : k ∉ keys.take i := not_mem_take_of_nodup keys hnd i k hk
    refine ⟨?_, ?_, ?_, ?_, ?_⟩
    · unfold Dict.get
      rw [he, lookup_eq_none_iff_not_mem, List.map_take,
        map_fst_zip_of_length_eq keys records hlen]
      exact hnot
    · rw [hq]
      exact hnot
    · simp [storeRecord, Dict.get_set]
    · simp only [storeRecord]
      rw [hq]
      exact hnot
    · have hz : (List.zip keys records)[i]? = some (k, r) := by
        rw [List.getElem?_zip_eq_some]
        exact ⟨hk, hr⟩
      rw [List.take_succ, hz, enqueueLoop_append]
      rfl
  · rw [main_callsData, enqueueLoop_eq_execStmts]
  · rw [main_queue, enqueueLoop_eq_execStmts]
  · intro pre post k h
    exact stored_before_push (List.zip keys records) (initState argv3 stamp) pre post k h
  · intro pre post k r h
    refine fresh_before_set (List.zip keys records) (initState argv3 stamp)
      (by rw [map_fst_zip_of_length_eq keys records hlen]; exact hnd) ?_ pre post k r h
    intro j _
    exact ⟨rfl, by simp [initState_queue]⟩

/-- C8, at a concrete input: three records under the keys `k1`, `k2`, `k3`; when the push
of `k2` is reached, `k2` is in the map. -/
theorem main_enqueues_in_order_witness :
    (main (some "report.csv") "" [aliceRecord, carolRecord, daveRecord]
        ["k1", "k2", "k3"]).callsData.keys = ["k1", "k2", "k3"] ∧
    (main (some "report.csv") "" [aliceRecord, carolRecord, daveRecord]
        ["k1", "k2", "k3"]).queue = ["k1", "k2", "k3"] ∧
    (execStmts (initState (some "report.csv") "")
        [Stmt.set "k1" aliceRecord, Stmt.push "k1", Stmt.set "k2" carolRecord]).callsData.get
        "k2" ≠ none :=
  ⟨(main_enqueues_in_order (some "report.csv") "" [aliceRecord, carolRecord, daveRecord]
      ["k1", "k2", "k3"] (by decide) (by decide)).2.2.1,
    (main_enqueues_in_order (some "report.csv") "" [aliceRecord, carolRecord, daveRecord]
      ["k1", "k2", "k3"] (by decide) (by decide)).2.2.2.2.1,
    (main_enqueues_in_order (some "report.csv") "" [aliceRecord, carolRecord, daveRecord]
      ["k1", "k2", "k3"] (by decide) (by decide)).2.2.2.2.2.2.2.2.1
      [Stmt.set "k1" aliceRecord, Stmt.push "k1", Stmt.set "k2" carolRecord]
      [Stmt.set "k3" daveRecord, Stmt.push "k3"] "k2" rfl⟩

/-! ## Event sequences in which every job is resolved once -/

theorem run_nil (s : State) : run s [] = s := rfl

theorem run_cons (s : State) (e : Event) (es : List Event) :
    run s (e :: es) = run (step s e) es := rfl

theorem step_of_present (s : State) (e : Event) (k : Key) (hk : e.key? = some k)
    (hp : s.callsData.get k ≠ none) :
    (step s e).callsData = s.callsData.delete k ∧
    (step s e).report.map rowSummary = s.report.map rowSummary ++ [e.expected] ∧
    (step s e).ended = if (s.callsData.delete k).size = 0 then s.ended + 1 else s.ended := by
  obtain ⟨data, hd⟩ := Option.ne_none_iff_exists'.mp hp
  cases e with
  | ready key now outcome =>
    simp only [Event.key?, Option.some.injEq] at hk
    subst hk
    refine ⟨onReady_callsData s key now outcome data hd, ?_, onReady_ended s key now outcome data hd⟩
    cases outcome with
    | ok result =>
      simp only [step]
      rw [onReady_report_ok s key now result data hd]
      simp [rowSummary, Event.expected, Event.key?, Event.jobStatus?,
        get_row_key _ _ _ _ key (get_completedData_key key result),
        get_row_jobStatus _ _ _ _ _ (get_completedData_jobStatus key result)]
    | error error =>
      simp only [step]
      rw [onReady_report_error s key now error data hd]
      simp [rowSummary, Event.expected, Event.key?, Event.jobStatus?,
        get_row_key _ _ _ _ key (get_customData_key key _),
        get_row_jobStatus _ _ _ _ _ (get_customData_jobStatus key _)]
  | error error => simp [Event.key?] at hk
  | rejected key now error =>
    simp only [Event.key?, Option.some.injEq] at hk
    subst hk
    refine ⟨onRejected_callsData s key now error, ?_, onRejected_ended s key now error⟩
    simp only [step]
    rw [onRejected_report]
    simp [rowSummary, Event.expected, Event.key?, Event.jobStatus?,
      get_row_key _ _ _ _ key (get_customData_key key _),
      get_row_jobStatus _ _ _ _ _ (get_customData_jobStatus key _)]
  | timeout key now =>
    simp only [Event.key?, Option.some.injEq] at hk
    subst hk
    refine ⟨onTimeout_callsData s key now, ?_, onTimeout_ended s key now⟩
    simp only [step]
    rw [onTimeout_report]
    simp [rowSummary, Event.expected, Event.key?, Event.jobStatus?,
      get_row_key _ _ _ _ key (get_customData_key key _),
      get_row_jobStatus _ _ _ _ _ (get_customData_jobStatus key _)]

theorem run_resolving (es : List Event) (s : State)
    (hn : (es.map Event.key?).Nodup)
    (hp : ∀ e ∈ es, ∃ k, e.key? = some k ∧ s.callsData.get k ≠ none) :
    (run s es).report.map rowSummary = s.report.map rowSummary ++ es.map Event.expected ∧
    (run s es).callsData.size + es.length = s.callsData.size ∧
    (run s es).ended
      = s.ended + (if es.length ≠ 0 ∧ s.callsData.size = es.length then 1 else 0) := by
  induction es generalizing s with
  | nil => simp [run_nil]
  | cons e t ih =>
    simp only [List.map_cons, List.nodup_cons] at hn
    obtain ⟨k, hk, hpres⟩ := hp e (by simp)
    obtain ⟨hc, hr, he⟩ := step_of_present s e k hk hpres
    have hsize : (s.callsData.delete k).size + 1 = s.callsData.size :=
      Dict.size_delete_of_get_some s.callsData k hpres
    have hp2 : ∀ e2 ∈ t, ∃ j, e2.key? = some j ∧ (step s e).callsData.get j ≠ none := by
      intro e2 he2
      obtain ⟨j, hj, hjp⟩ := hp e2 (List.mem_cons_of_mem _ he2)
      refine ⟨j, hj, ?_⟩
      have hne : j ≠ k := by
        intro h
        apply hn.1
        rw [hk, ← h, ← hj]
        exact List.mem_map_of_mem _ he2
      rw [hc, Dict.get_delete]
      simpa [hne] using hjp
    obtain ⟨i1, i2, i3⟩ := ih (step s e) hn.2 hp2
    rw [run_cons]
    refine ⟨?_, ?_, ?_⟩
    · rw [i1, hr]
      simp
    · rw [hc] at i2
      simp only [List.length_cons]
      omega
    · rw [hc] at i2 i3
      rw [i3, he]
      simp only [List.length_cons]
      split_ifs <;> omega

theorem main_keys (argv3 : Option String) (stamp : String) (rows : List Obj)
    (guids : List Key) (hlen : guids.length = rows.length) (hnd : guids.Nodup) :
    (main argv3 stamp rows guids).callsData.keys = guids := by
  simp [Dict.keys, main_entries argv3 stamp rows guids hlen hnd,
    map_fst_zip_of_length_eq guids rows hlen]

theorem main_size (argv3 : Option String) (stamp : String) (rows : List Obj)
    (guids : List Key) (hlen : guids.length = rows.length) (hnd : guids.Nodup) :
    (main argv3 stamp rows guids).callsData.size = rows.length := by
  simp [Dict.size, main_entries argv3 stamp rows guids hlen hnd, hlen]

theorem resolving_of_perm (argv3 : Option String) (stamp : String) (records : List Obj)
    (keys : List Key) (hlen : keys.length = records.length) (hnd : keys.Nodup)
    (events : List Event) (hperm : (events.map Event.key?).Perm (keys.map some)) :
    (events.map Event.key?).Nodup ∧
    (∀ e ∈ events, ∃ k, e.key? = some k ∧
      (main argv3 stamp records keys).callsData.get k ≠ none) ∧
    events.length = records.length := by
  refine ⟨hperm.nodup_iff.mpr (hnd.map (Option.some_injective _)), ?_, ?_⟩
  · intro e he
    have hmem : e.key? ∈ keys.map some :=
      hperm.mem_iff.mp (List.mem_map_of_mem Event.key? he)
    obtain ⟨k, hk, hke⟩ := List.mem_map.mp hmem
    refine ⟨k, hke.symm, ?_⟩
    rw [Ne, Dict.get_eq_none_iff, main_keys argv3 stamp records keys hlen hnd]
    exact not_not.mpr hk
  · have h := hperm.length_eq
    simp only [List.length_map] at h
    omega

theorem resolving_take (es : List Event) (d : Dict Obj) (j : Nat)
    (hn : (es.map Event.key?).Nodup)
    (hp : ∀ e ∈ es, ∃ k, e.key? = some k ∧ d.get k ≠ none) :
    ((es.take j).map Event.key?).Nodup ∧
    (∀ e ∈ es.take j, ∃ k, e.key? = some k ∧ d.get k ≠ none) :=
  ⟨hn.sublist ((List.take_sublist j es).map Event.key?),
    fun e he => hp e (List.mem_of_mem_take he)⟩

/-! ## Claims about event sequences -/

/-- C3: with N records enqueued under pairwise distinct keys and a sequence of resolving
events in which every enqueued key occurs exactly once, in any order, the report ends
with exactly N rows, one per enqueued key and no key twice, in the order the events were
handled, each row holding the key and the jobStatus of its event. -/
theorem report_one_row_per_job (argv3 : Option String) (stamp : String) (records : List Obj)
    (keys : List Key) (hlen : keys.length = records.length) (hnd : keys.Nodup)
    (events : List Event) (hperm : (events.map Event.key?).Perm (keys.map some)) :
    (run (main argv3 stamp records keys) events).report.length = records.length ∧
    (run (main argv3 stamp records keys) events).report.map rowSummary
      = events.map Event.expected ∧
    ((run (main argv3 stamp records keys) events).report.map (fun row => row.get "key")).Perm
      (keys.map (fun k => some (Value.str k))) ∧
    ((run (main argv3 stamp records keys) events).report.map (fun row => row.get "key")).Nodup := by
  obtain ⟨hn, hp, hl⟩ := resolving_of_perm argv3 stamp records keys hlen hnd events hperm
  have hrows : (run (main argv3 stamp records keys) events).report.map rowSummary
      = events.map Event.expected := by
    have h := (run_resolving events (main argv3 stamp records keys) hn hp).1
    rw [main_report] at h
    simpa using h
  have hkeys : (run (main argv3 stamp records keys) events).report.map (fun row => row.get "key")
      = (events.map Event.key?).map (Option.map Value.str) := by
    have h := congrArg (List.map Prod.fst) hrows
    simp only [List.map_map] at h
    simpa [Function.comp, rowSummary, Event.expected] using h
  have hp2 : ((events.map Event.key?).map (Option.map Value.str)).Perm
      (keys.map (fun k => some (Value.str k))) := by
    have h := hperm.map (Option.map Value.str)
    simpa [List.map_map, Function.comp] using h
  refine ⟨?_, hrows, ?_, ?_⟩
  · have h := congrArg List.length hrows
    simp only [List.length_map] at h
    omega
  · rw [hkeys]
    exact hp2
  · rw [hkeys]
    refine hp2.nodup_iff.mpr (hnd.map ?_)
    intro a b hab
    simpa using hab

/-- C3, at the scenario of the specification: three records, timeout on the first key,
rejected on the second, ready with a resolved execution on the third; the rows are Timeout,
Rejected, Completed in that order. -/
theorem report_one_row_per_job_witness :
    (run threeJobs
        [Event.timeout "k1" 1, Event.rejected "k2" 2 sampleError,
          Event.ready "k3" 3 (Except.ok ⟨some bobOutput, Value.str "url"⟩)]).report.map
        rowSummary
      = [(some (Value.str "k1"), some (Value.str "Timeout")),
         (some (Value.str "k2"), some (Value.str "Rejected")),
         (some (Value.str "k3"), some (Value.str "Completed"))] :=
  (report_one_row_per_job (some "report.csv") "" [aliceRecord, carolRecord, daveRecord]
    ["k1", "k2", "k3"] (by decide) (by decide)
    [Event.timeout "k1" 1, Event.rejected "k2" 2 sampleError,
      Event.ready "k3" 3 (Except.ok ⟨some bobOutput, Value.str "url"⟩)]
    (List.Perm.refl _)).2.1

/-- C4: with N >= 1 records enqueued under pairwise distinct keys and a sequence of
resolving events in which every enqueued key occurs exactly once, the map holds N - j
entries after j events, so it is non-empty after every event but the last and empty after
the last, and `onEnded` has not been called before the last event and has been called
exactly once after it. -/
theorem shutdown_once_at_drain (argv3 : Option String) (stamp : String) (records : List Obj)
    (keys : List Key) (hlen : keys.length = records.length) (hnd : keys.Nodup)
    (hpos : 0 < records.length)
    (events : List Event) (hperm : (events.map Event.key?).Perm (keys.map some)) :
    events.length = records.length ∧
    (∀ j, j < events.length →
      (run (main argv3 stamp records keys) (events.take j)).callsData.size
          = records.length - j ∧
      0 < (run (main argv3 stamp records keys) (events.take j)).callsData.size ∧
      (run (main argv3 stamp records keys) (events.take j)).ended = 0) ∧
    (run (main argv3 stamp records keys) events).callsData.size = 0 ∧
    (run (main argv3 stamp records keys) events).ended = 1 := by
  obtain ⟨hn, hp, hl⟩ := resolving_of_perm argv3 stamp records keys hlen hnd events hperm
  have hsz := main_size argv3 stamp records keys hlen hnd
  have he0 := main_ended argv3 stamp records keys
  refine ⟨hl, ?_, ?_, ?_⟩
  · intro j hj
    obtain ⟨hn2, hp2⟩ := resolving_take events _ j hn hp
    obtain ⟨_, h2, h3⟩ := run_resolving (events.take j) (main argv3 stamp records keys) hn2 hp2
    have hlt : (events.take j).length = j := by
      rw [List.length_take]
      omega
    rw [hlt, hsz] at h2
    rw [hlt, hsz, he0] at h3
    refine ⟨by omega, by omega, ?_⟩
    rw [h3]
    have : ¬ (j ≠ 0 ∧ records.length = j) := by omega
    simp [this]
  · have h2 := (run_resolving events (main argv3 stamp records keys) hn hp).2.1
    rw [hsz] at h2
    omega
  · have h3 := (run_resolving events (main argv3 stamp records keys) hn hp).2.2
    rw [hsz, he0] at h3
    rw [h3]
    have : events.length ≠ 0 ∧ records.length = events.length := by omega
    simp [this]

/-- C4, at a concrete input: three jobs resolved in the order `k3`, `k1`, `k2`. -/
theorem shutdown_once_at_drain_witness :
    (run threeJobs
        [Event.ready "k3" 1 (Except.error sampleError), Event.timeout "k1" 2,
          Event.rejected "k2" 3 sampleError]).callsData.size = 0 ∧
    (run threeJobs
        [Event.ready "k3" 1 (Except.error sampleError), Event.timeout "k1" 2,
          Event.rejected "k2" 3 sampleError]).ended = 1 :=
  (shutdown_once_at_drain (some "report.csv") "" [aliceRecord, carolRecord, daveRecord]
    ["k1", "k2", "k3"] (by decide) (by decide) (by decide)
    [Event.ready "k3" 1 (Except.error sampleError), Event.timeout "k1" 2,
      Event.rejected "k2" 3 sampleError]
    (by decide)).2.2

/-! ## The shutdown count over turns of the event loop -/

theorem Dict.size_delete_le {β : Type} (d : Dict β) (k : String) : (d.delete k).size ≤ d.size :=
  List.length_filter_le _ _

theorem readyBegin_frame (s : State) (k : Key) :
    (readyBegin s k).1.callsData = s.callsData ∧
    (readyBegin s k).1.ended = s.ended ∧
    (readyBegin s k).1.report = s.report := by
  unfold readyBegin
  cases s.callsData.get k <;> exact ⟨rfl, rfl, rfl⟩

theorem onReady_eq_turns (s : State) (k : Key) (now : Nat)
    (outcome : Except JsError ExecResult) (data : Obj) (h : s.callsData.get k = some data) :
    (onReady s k now outcome).1
      = play s [Turn.ready k, Turn.settled k (configured data) now outcome] := by
  simp [onReady, readyBegin, h, play, advance]

theorem onReady_eq_ready_turn (s : State) (k : Key) (now : Nat)
    (outcome : Except JsError ExecResult) (h : s.callsData.get k = none) :
    (onReady s k now outcome).1 = play s [Turn.ready k] := by
  simp [onReady, readyBegin, h, play, advance]

theorem play_cons (s : State) (t : Turn) (ts : List Turn) :
    play s (t :: ts) = play (advance s t) ts := rfl

theorem resolved_effect (s u : State) (k : Key)
    (hc : u.callsData = s.callsData.delete k)
    (he : u.ended = if (s.callsData.delete k).size = 0 then s.ended + 1 else s.ended) :
    u.callsData.size ≤ s.callsData.size ∧
    u.ended = s.ended + (if true = true ∧ u.callsData.size = 0 then 1 else 0) := by
  rw [he, hc]
  refine ⟨Dict.size_delete_le _ _, ?_⟩
  by_cases hz : (s.callsData.delete k).size = 0 <;> simp [hz]

theorem advance_effect (s : State) (t : Turn) :
    (advance s t).callsData.size ≤ s.callsData.size ∧
    (advance s t).ended
      = s.ended + (if t.resolves = true ∧ (advance s t).callsData.size = 0 then 1 else 0) := by
  cases t with
  | ready key =>
    obtain ⟨h1, h2, _⟩ := readyBegin_frame s key
    simp only [advance, Turn.resolves]
    refine ⟨by rw [h1], ?_⟩
    rw [h2]
    simp
  | settled key conv now outcome =>
    exact resolved_effect s _ key (readyResume_callsData s key conv now outcome)
      (readyResume_ended s key conv now outcome)
  | error error =>
    simp [advance, Turn.resolves, onError]
  | rejected key now error =>
    exact resolved_effect s _ key (onRejected_callsData s key now error)
      (onRejected_ended s key now error)
  | timeout key now =>
    exact resolved_effect s _ key (onTimeout_callsData s key now)
      (onTimeout_ended s key now)

theorem play_ended_mono (ts : List Turn) (s : State) : s.ended ≤ (play s ts).ended := by
  induction ts generalizing s with
  | nil => exact Nat.le_refl _
  | cons t rest ih =>
    rw [play_cons]
    have h := (advance_effect s t).2
    have h2 := ih (advance s t)
    omega

theorem advance_drained_inv (s : State) (t : Turn)
    (hok : (t.resolves && s.callsData.size == 0 && s.ended != 0) = false)
    (hinv : s.ended = 0 ∨ (s.ended = 1 ∧ s.callsData.size = 0)) :
    (advance s t).ended = 0 ∨ ((advance s t).ended = 1 ∧ (advance s t).callsData.size = 0) := by
  obtain ⟨hle, he⟩ := advance_effect s t
  rcases hinv with h0 | ⟨h1, hz⟩
  · rw [h0] at he
    by_cases hc : t.resolves = true ∧ (advance s t).callsData.size = 0
    · right
      rw [if_pos hc] at he
      exact ⟨by omega, hc.2⟩
    · left
      rw [if_neg hc] at he
      omega
  · have hnr : t.resolves = false := by
      cases hr : t.resolves with
      | false => rfl
      | true => simp [hr, hz, h1] at hok
    right
    rw [hnr] at he
    simp only [Bool.false_eq_true, false_and, if_false] at he
    exact ⟨by omega, by omega⟩

theorem play_ended_iff (ts : List Turn) (s : State)
    (hinv : s.ended = 0 ∨ (s.ended = 1 ∧ s.callsData.size = 0)) :
    (play s ts).ended ≤ 1 ↔ noLateResolve s ts = true := by
  induction ts generalizing s with
  | nil =>
    simp only [noLateResolve, iff_true]
    show s.ended ≤ 1
    omega
  | cons t rest ih =>
    rw [play_cons]
    simp only [noLateResolve, Bool.and_eq_true, Bool.not_eq_true']
    cases hok : (t.resolves && s.callsData.size == 0 && s.ended != 0) with
    | false =>
      rw [ih (advance s t) (advance_drained_inv s t hok hinv)]
      simp
    | true =>
      simp only [Bool.and_eq_true, beq_iff_eq, bne_iff_ne, ne_eq] at hok
      obtain ⟨⟨hr, hz⟩, hne⟩ := hok
      obtain ⟨hle, he⟩ := advance_effect s t
      have hz2 : (advance s t).callsData.size = 0 := by omega
      rw [if_pos ⟨hr, hz2⟩] at he
      have hm := play_ended_mono rest (advance s t)
      constructor
      · intro h
        omega
      · intro h
        simp at h

/-! ## Claim about the shutdown count -/

/-- C5 fails as stated: with one job enqueued, the timeout of `k1` drains the map and calls
`onEnded`; a rejected event for `k1`, now absent, finds the map empty again and calls
`onEnded` a second time. So does a ready handler for `k1` that was suspended at its `await`
when the timeout ran and resumes afterwards. -/
theorem shutdown_invoked_twice :
    (play oneJob [Turn.timeout "k1" 1]).callsData.size = 0 ∧
    (play oneJob [Turn.timeout "k1" 1]).ended = 1 ∧
    (play oneJob [Turn.timeout "k1" 1]).callsData.get "k1" = none ∧
    (play oneJob [Turn.timeout "k1" 1, Turn.rejected "k1" 2 sampleError]).ended = 2 ∧
    (play oneJob
      [Turn.ready "k1", Turn.timeout "k1" 1,
        Turn.settled "k1" (configured aliceRecord) 2
          (Except.ok ⟨none, Value.str "url"⟩)]).ended = 2 := by
  decide

/-- C5, amended: every rejected handler, timeout handler and resumed ready handler calls
`onEnded` when the map is empty after its removal, and no other turn calls it. From a state
in which `onEnded` was not called yet it is therefore called at most once exactly over the
sequences of turns in which no such handler runs while the map is empty and `onEnded` was
already called. -/
theorem shutdown_at_most_once (s : State) (turns : List Turn) (h0 : s.ended = 0) :
    ((play s turns).ended ≤ 1 ↔ noLateResolve s turns = true) ∧
    (∀ (u : State) (t : Turn),
      (advance u t).ended
        = u.ended + (if t.resolves = true ∧ (advance u t).callsData.size = 0 then 1 else 0)) :=
  ⟨play_ended_iff turns s (Or.inl h0), fun u t => (advance_effect u t).2⟩

/-- C5 amended, at a concrete input: three jobs, two ready handlers suspended at the same
time, an engine-level error, a timeout for a key that is still being executed and a ready
event for an unknown key; the last resolving turn is the one that drains the map. -/
theorem shutdown_at_most_once_witness :
    threeJobs.ended = 0 ∧
    (play threeJobs
        [Turn.ready "k1", Turn.ready "k2", Turn.timeout "k3" 1,
          Turn.settled "k2" (configured carolRecord) 2 (Except.error sampleError),
          Turn.error sampleError, Turn.timeout "k2" 3, Turn.ready "k3",
          Turn.settled "k1" (configured aliceRecord) 4
            (Except.ok ⟨none, Value.str "url"⟩)]).ended ≤ 1 :=
  ⟨by decide,
    ((shutdown_at_most_once threeJobs
      [Turn.ready "k1", Turn.ready "k2", Turn.timeout "k3" 1,
        Turn.settled "k2" (configured carolRecord) 2 (Except.error sampleError),
        Turn.error sampleError, Turn.timeout "k2" 3, Turn.ready "k3",
        Turn.settled "k1" (configured aliceRecord) 4
          (Except.ok ⟨none, Value.str "url"⟩)]
      (by decide)).1).mpr (by decide)⟩

end DashaCsv
